import Mathlib

/-!
Verification of the Authorization & Session Core of the SampleApp
repository (Python/FastAPI backend, Next.js frontend).

The backend implementation of the core (TokenService, PermissionEngine,
ResetTokenManager, ConfigCache) is not present among the source files of
this checkout; only its frontend callers are.  Those components are
therefore modelled from the specification, definition by definition, each
marked `Modelled from the spec:`.  The frontend pieces (login redirect
sanitization, admin role update, password form validation) are embedded
directly from the TypeScript source files.
-/

namespace SampleApp

/-! ## Data model (spec section 3) -/

/-- Modelled from the spec: a Role has a unique name, `is_system` and
`is_active` flags, and a set of Permission references.  Permissions are
identified here by their unique slug (`resource:action`).  The backend
role model is missing from the checkout. -/
structure Role where
  id : Nat
  name : String
  is_system : Bool
  is_active : Bool
  permissions : List String
  deriving Repr, DecidableEq

/-- Modelled from the spec: a Principal has an opaque id, an `active`
flag, the boolean super-admin flag (`is_admin` in the repository, visible
in the frontend `AdminLayout` and user models), and a monotonic
invalidation epoch.  The backend principal model is missing from the
checkout. -/
structure Principal where
  id : Nat
  active : Bool
  is_admin : Bool
  epoch : Nat
  deriving Repr, DecidableEq

/-- Modelled from the spec: a RoleAssignment is a many-to-many edge
between a Principal and a Role, represented as an explicit join-table
entity keyed by ids. -/
structure RoleAssignment where
  principalId : Nat
  roleId : Nat
  deriving Repr, DecidableEq

/-! ## PermissionEngine (spec section 4.3) -/

/-- Modelled from the spec: `effectivePermissions(principal)` is the
union over all currently assigned, active roles' permission sets, and the
empty set for an inactive principal.  Permissions of deactivated roles
are excluded even while the assignment edge exists.  The backend
PermissionEngine is missing from the checkout. -/
def effectivePermissions (roles : List Role) (asgn : List RoleAssignment)
    (p : Principal) : List String :=
  if p.active then
    (asgn.filter (fun a => a.principalId == p.id)).flatMap (fun a =>
      (roles.filter (fun r => r.id == a.roleId && r.is_active)).flatMap
        (fun r => r.permissions))
  else []

/-- Modelled from the spec: `authorize(principal, permission)` is `true`
iff the designated super-admin bit (`is_admin`) is set or the permission
is a member of the principal's effective permissions.  The backend
authorization check is missing from the checkout. -/
def authorize (roles : List Role) (asgn : List RoleAssignment)
    (p : Principal) (q : String) : Bool :=
  p.is_admin || (effectivePermissions roles asgn p).contains q

/-! ## TokenService (spec section 4.2) -/

/-- Modelled from the spec: a SessionCredential is a signed,
self-contained token with subject (principal id), issued-at, expiry and
an epoch claim.  The signature is modelled by recording the signing key
the token was produced with; `validate` accepts the signature exactly
when that key equals the process-wide signing key. -/
structure SessionCredential where
  subject : Nat
  issuedAt : Nat
  expiry : Nat
  epoch : Nat
  sigKey : Nat
  deriving Repr, DecidableEq

/-- Errors of the TokenService, from the spec's error-handling
section. -/
inductive TokenError where
  | Invalid
  | Expired
  | Revoked
  | Inactive
  deriving Repr, DecidableEq

/-- Modelled from the spec: the fixed session TTL — one hour, in
seconds (`token issued at T0 with 1-hour TTL`). -/
def sessionTTL : Nat := 3600

/-- Modelled from the spec: `issue(principalId, epoch)` produces a
signed token with subject, issued-at, expiry = now + fixed TTL, and the
principal's current epoch.  The backend TokenService is missing from the
checkout. -/
def issue (key : Nat) (p : Principal) (now : Nat) : SessionCredential :=
  { subject := p.id, issuedAt := now, expiry := now + sessionTTL,
    epoch := p.epoch, sigKey := key }

/-- Modelled from the spec: `validate(token)` verifies the signature,
checks expiry, checks the embedded epoch against the principal's live
epoch (a fresh read through `lookup`), and checks `active = true`;
failing respectively with `Invalid`, `Expired`, `Revoked` (epoch
mismatch) or `Inactive`.  The backend TokenService is missing from the
checkout. -/
def validate (key : Nat) (lookup : Nat → Option Principal)
    (c : SessionCredential) (now : Nat) : Except TokenError Principal :=
  if c.sigKey ≠ key then .error .Invalid
  else if c.expiry < now then .error .Expired
  else
    match lookup c.subject with
    | none => .error .Invalid
    | some p =>
      if c.epoch ≠ p.epoch then .error .Revoked
      else if ¬ p.active then .error .Inactive
      else .ok p

/-! ## ResetTokenManager (spec section 4.4) -/

/-- Modelled from the spec: the stored form of a ResetToken — only the
hash of the raw opaque value is stored, bound to one principal, with an
absolute expiry and the redeemed mark (`Issued -> Redeemed` is modelled
by flipping `redeemed`; `Expired` is a predicate checked at redemption
time). -/
structure TokenRecord where
  hash : Nat
  principalId : Nat
  expiry : Nat
  redeemed : Bool
  deriving Repr, DecidableEq

/-- Modelled from the spec: the ResetTokenManager's store — the token
records, together with the set of hashes ever issued (high-entropy
opaque values are never generated twice; `usedHashes` records that). -/
structure ResetState where
  records : List TokenRecord
  usedHashes : List Nat
  deriving Repr, DecidableEq

/-- Modelled from the spec: tokens are looked up by the hash of the raw
value.  The claims do not depend on the hash algorithm, only on lookup
by hash, so the hash function is the identity here. -/
def hashToken (raw : Nat) : Nat := raw

/-- Modelled from the spec: the reset-token TTL, minutes-to-hours scale
(one hour here, in seconds). -/
def resetTTL : Nat := 3600

/-- Errors of the ResetTokenManager, from the spec's error-handling
section. -/
inductive RedeemError where
  | NotFound
  | Expired
  | AlreadyRedeemed
  deriving Repr, DecidableEq

/-- Modelled from the spec: `requestReset(principal)` invalidates any
prior unredeemed token of the same principal (their records are
dropped), generates a new high-entropy opaque value and stores only its
hash plus expiry.  The backend ResetTokenManager is missing from the
checkout. -/
def requestReset (st : ResetState) (pid raw now : Nat) : ResetState :=
  { records := (st.records.filter
      (fun r => !(r.principalId == pid && !r.redeemed))) ++
      [⟨hashToken raw, pid, now + resetTTL, false⟩],
    usedHashes := hashToken raw :: st.usedHashes }

/-- Modelled from the spec: `redeem(rawToken, newSecret)` looks up by
hash, fails with `NotFound` if absent, `AlreadyRedeemed` if already
consumed, `Expired` if past expiry, and otherwise atomically marks the
token redeemed and yields the principal whose secret is updated in the
same transaction (the secret update itself has no bearing on the
claims).  The backend ResetTokenManager is missing from the checkout. -/
def redeem (st : ResetState) (raw now : Nat) :
    Except RedeemError (Nat × ResetState) :=
  match st.records.find? (fun r => r.hash == hashToken raw) with
  | none => .error .NotFound
  | some r =>
    if r.redeemed then .error .AlreadyRedeemed
    else if r.expiry < now then .error .Expired
    else .ok (r.principalId,
      { st with records := st.records.map (fun r2 =>
          if r2.hash == hashToken raw then { r2 with redeemed := true }
          else r2) })

/-- Modelled from the spec: expired tokens are garbage-collected after
expiry. -/
def gcExpired (st : ResetState) (now : Nat) : ResetState :=
  { st with records := st.records.filter (fun r => !(r.expiry < now)) }

/-- One step of the ResetTokenManager on a (store, clock) pair: a reset
request with a fresh raw value, a successful redemption, a
garbage-collection pass, or the mere passage of time.  The clock never
goes backwards. -/
inductive ResetStep : ResetState × Nat → ResetState × Nat → Prop where
  | request (st : ResetState) (t pid raw t' : Nat) :
      t ≤ t' → hashToken raw ∉ st.usedHashes →
      ResetStep (st, t) (requestReset st pid raw t', t')
  | redeemOk (st : ResetState) (t raw t' pid : Nat) (st' : ResetState) :
      t ≤ t' → redeem st raw t' = .ok (pid, st') →
      ResetStep (st, t) (st', t')
  | gc (st : ResetState) (t t' : Nat) :
      t ≤ t' → ResetStep (st, t) (gcExpired st t', t')
  | tick (st : ResetState) (t t' : Nat) :
      t ≤ t' → ResetStep (st, t) (st, t')

/-- Reachability: finitely many `ResetStep`s. -/
inductive ResetReach : ResetState × Nat → ResetState × Nat → Prop where
  | refl (s : ResetState × Nat) : ResetReach s s
  | tail {s1 s2 s3 : ResetState × Nat} :
      ResetReach s1 s2 → ResetStep s2 s3 → ResetReach s1 s3

/-- Well-formedness of the store: every stored record's hash was
issued. -/
def ResetWF (st : ResetState) : Prop :=
  ∀ r ∈ st.records, r.hash ∈ st.usedHashes

/-- A token hash is dead at time `t`: it was issued, and every record
carrying it is redeemed or past expiry. -/
def TokenDead (st : ResetState) (t h : Nat) : Prop :=
  h ∈ st.usedHashes ∧
  ∀ r ∈ st.records, r.hash = h → (r.redeemed = true ∨ r.expiry < t)

/-- At most one live (unredeemed) token record per principal. -/
def AtMostOneLive (st : ResetState) : Prop :=
  ∀ pid, (st.records.filter
    (fun r => r.principalId == pid && !r.redeemed)).length ≤ 1

/-! ## ConfigCache (spec section 4.5) -/

/-- Modelled from the spec: a typed configuration value
(string/int/bool). -/
inductive ConfigValue where
  | str (s : String)
  | int (i : Int)
  | bool (b : Bool)
  deriving Repr, DecidableEq

/-- Modelled from the spec: a ConfigEntry has a unique key, a typed
value, a category, and `is_secret` / `is_editable` flags;
`is_editable = false` entries reject writes.  The backend config model is
missing from the checkout. -/
structure ConfigEntry where
  key : String
  value : ConfigValue
  category : String
  is_secret : Bool
  is_editable : Bool
  deriving Repr, DecidableEq

/-- Errors of the ConfigCache, from the spec's error-handling section. -/
inductive ConfigError where
  | NotEditable
  | UnknownKey
  deriving Repr, DecidableEq

/-- Modelled from the spec: `bulkSet(map)` is all-or-nothing — if any
key of the update map is unknown or names a non-editable entry, none of
the updates are applied and the store is returned unchanged together with
the error; otherwise every named entry's value is replaced.  The backend
ConfigCache is missing from the checkout (only the frontend caller
`api.admin.config.bulkUpdate` is present). -/
def bulkSet (entries : List ConfigEntry) (m : List (String × ConfigValue)) :
    List ConfigEntry × Option ConfigError :=
  if m.any (fun kv => (entries.find? (fun e => e.key == kv.1)).isNone) then
    (entries, some .UnknownKey)
  else if m.any (fun kv =>
      match entries.find? (fun e => e.key == kv.1) with
      | some e => !e.is_editable
      | none => false) then
    (entries, some .NotEditable)
  else
    ((entries.map (fun e =>
      match m.find? (fun kv => kv.1 == e.key) with
      | some kv => { e with value := kv.2 }
      | none => e)), none)

/-! ## Frontend: login redirect sanitization
(`LoginForm` in the login page source) -/

/-- `startsWith` on character lists (structural, so that concrete
instances reduce). -/
def listStartsWith : List Char → List Char → Bool
  | _, [] => true
  | [], _ :: _ => false
  | a :: s, b :: p => a == b && listStartsWith s p

/-- `s.startsWith(p)` of the TypeScript source. -/
def strStartsWith (s p : String) : Bool :=
  listStartsWith s.data p.data

/-- Substring occurrence on character lists. -/
def listContainsSub : List Char → List Char → Bool
  | [], sub => sub.isEmpty
  | s@(_ :: t), sub => listStartsWith s sub || listContainsSub t sub

/-- `s.includes(sub)` of the TypeScript source: `true` iff `sub` occurs
in `s`. -/
def containsStr (s sub : String) : Bool :=
  listContainsSub s.data sub.data

/-- Split a character list at the first occurrence of `sub`, yielding
the parts before and after it. -/
def breakOnSub : List Char → List Char → Option (List Char × List Char)
  | s, sub =>
    if listStartsWith s sub then some ([], s.drop sub.length)
    else
      match s with
      | [] => none
      | c :: t =>
        match breakOnSub t sub with
        | some (pre, post) => some (c :: pre, post)
        | none => none

/-- The components of a parsed URL that the sanitizer reads:
`url.pathname`, `url.search` and `url.hash` (called `fragment` here),
plus the host. -/
structure URLParts where
  host : String
  pathname : String
  search : String
  fragment : String
  deriving Repr, DecidableEq

/-- A character ending the authority component of a URL. -/
def isAuthorityEnd (c : Char) : Bool :=
  c == '/' || c == '?' || c == '#'

/-- A valid `host[:port]` authority: nonempty host, and if a port is
present it is all digits. -/
def validAuthority (auth : List Char) : Bool :=
  let host := auth.takeWhile (fun c => c != ':')
  match auth.dropWhile (fun c => c != ':') with
  | [] => !host.isEmpty
  | _ :: port =>
    !host.isEmpty && port.all Char.isDigit &&
      !(port.any (fun c => c == ':'))

/-- A valid URL scheme: a letter followed by letters, digits, `+`, `-`
or `.`. -/
def validScheme (s : String) : Bool :=
  match s.data with
  | [] => false
  | c :: rest => c.isAlpha &&
      rest.all (fun c2 => c2.isAlphanum || c2 == '+' || c2 == '-' ||
        c2 == '.')

/-- Model of the browser's WHATWG `new URL(...)` constructor as used by
the login page (this is runtime behaviour, not repository code), on
inputs of the form `scheme://...`: extra slashes after the scheme are
skipped, the authority runs to the first `/`, `?` or `#`, the pathname
runs from there to the first `?` or `#` (and is `/` when absent), then
the search and fragment follow.  Path-segment normalization,
percent-encoding and scheme-specific corner cases are not modelled; the
claims exercise none of them.  Returns `none` where the constructor
throws. -/
def parseURL (s : List Char) : Option URLParts :=
  match breakOnSub s "://".data with
  | none => none
  | some (scheme, remainder) =>
    if validScheme (String.mk scheme) then
      let cs := remainder.dropWhile (fun c => c == '/')
      let auth := cs.takeWhile (fun c => !isAuthorityEnd c)
      let tail0 := cs.dropWhile (fun c => !isAuthorityEnd c)
      if validAuthority auth then
        let pathL := if tail0.head? == some '/' then
            tail0.takeWhile (fun c => c != '?' && c != '#')
          else ['/']
        let afterPath := if tail0.head? == some '/' then
            tail0.dropWhile (fun c => c != '?' && c != '#')
          else tail0
        let searchL := if afterPath.head? == some '?' then
            afterPath.takeWhile (fun c => c != '#')
          else []
        let fragL := afterPath.dropWhile (fun c => c != '#')
        some ⟨String.mk auth, String.mk pathL, String.mk searchL,
          String.mk fragL⟩
      else none
    else none

/-- The redirect sanitization of `LoginForm` (login page `useEffect`),
embedded from the source: a `redirect` query value already starting with
`/` but not `//` is used directly; otherwise it is parsed as a URL
(prefixed with `http://` when it lacks `://`) and the path, search and
fragment portions are kept; the result is stored only when it starts
with `/`.  The stored value is what a successful login later passes to
`router.push`. -/
def sanitizeRedirect (redirect : String) : Option String :=
  let safePath : Option String :=
    if strStartsWith redirect "/" && !(strStartsWith redirect "//") then
      some redirect
    else
      let urlToParse := if containsStr redirect "://" then redirect.data
        else "http://".data ++ redirect.data
      match parseURL urlToParse with
      | some u => some (u.pathname ++ u.search ++ u.fragment)
      | none => none
  match safePath with
  | some sp => if strStartsWith sp "/" then some sp else none
  | none => none

/-! ## Frontend: admin user role update
(`handleSubmit` of `AdminUsersPage`) -/

/-- Modelled from the spec: the role-assignment DELETE endpoint detaches
the named role from the user (the backend handler is missing from the
checkout). -/
def applyRoleDelete (assigned : List String) (rid : String) : List String :=
  assigned.filter (fun x => x ≠ rid)

/-- Modelled from the spec: the role-assignment POST endpoint attaches
the named role to the user, a many-to-many edge held at most once (the
backend handler is missing from the checkout). -/
def applyRoleAdd (assigned : List String) (rid : String) : List String :=
  if assigned.contains rid then assigned else rid :: assigned

/-- The role-mutation sequence of `AdminUsersPage.handleSubmit`,
embedded from the source: first a DELETE for every role currently held
by the edited user (`editingUser.roles`), then a POST for every selected
role id (`formRoles`), applied to the server's assignment set. -/
def handleSubmitRoles (current priorRoles formRoles : List String) :
    List String :=
  formRoles.foldl applyRoleAdd (priorRoles.foldl applyRoleDelete current)

/-! ## Frontend: password form validation -/

/-- What a form submit handler does: reject locally with a message, or
issue the API request. -/
inductive FormAction where
  | rejected (msg : String)
  | apiCall
  deriving Repr, DecidableEq

/-- The signup form's `handleSubmit` validation, embedded from the
source: mismatching passwords, then a password shorter than 8
characters, reject before `api.auth.signup` is called. -/
def signupSubmit (password confirmPassword : String) : FormAction :=
  if password ≠ confirmPassword then .rejected "Passwords do not match"
  else if password.length < 8 then
    .rejected "Password must be at least 8 characters"
  else .apiCall

/-- The reset-password form's `handleSubmit` validation, embedded from
the source: mismatch, then length, then a missing token, reject before
`api.auth.resetPassword` is called. -/
def resetPasswordSubmit (password confirmPassword : String)
    (token : Option String) : FormAction :=
  if password ≠ confirmPassword then .rejected "Passwords do not match"
  else if password.length < 8 then
    .rejected "Password must be at least 8 characters"
  else
    match token with
    | none => .rejected "Invalid reset token"
    | some _ => .apiCall

/-- The dashboard page's `handlePasswordChange` validation, embedded
from the source: mismatch, then length, reject before the
change-password request is sent. -/
def dashboardPasswordChange (newPassword confirmPassword : String) :
    FormAction :=
  if newPassword ≠ confirmPassword then
    .rejected "New passwords do not match"
  else if newPassword.length < 8 then
    .rejected "Password must be at least 8 characters"
  else .apiCall

/-- The profile page's `handlePasswordSubmit` validation, embedded from
the source: mismatch, then length, reject before the change-password
request is sent. -/
def profilePasswordSubmit (newPassword confirmPassword : String) :
    FormAction :=
  if newPassword ≠ confirmPassword then
    .rejected "New passwords do not match"
  else if newPassword.length < 8 then
    .rejected "Password must be at least 8 characters"
  else .apiCall

end SampleApp

namespace SampleApp

/-! ## Theorems: PermissionEngine -/

/-- C2: for every principal `P`, `effectivePermissions P` consists of
exactly the permissions of the active roles currently assigned to `P`
(deactivated roles are excluded even while the assignment edge exists),
and it is empty whenever `P` is inactive. -/
theorem effectivePermissions_characterization
    (roles : List Role) (asgn : List RoleAssignment) (p : Principal)
    (q : String) :
    (q ∈ effectivePermissions roles asgn p ↔
      p.active = true ∧ ∃ a ∈ asgn, a.principalId = p.id ∧
        ∃ r ∈ roles, r.id = a.roleId ∧ r.is_active = true ∧
          q ∈ r.permissions) ∧
    (p.active = false → effectivePermissions roles asgn p = []) := by
  constructor
  · unfold effectivePermissions
    by_cases hp : p.active
    · simp only [hp, if_pos, List.mem_flatMap, List.mem_filter, beq_iff_eq,
        Bool.and_eq_true, true_and]
      constructor
      · rintro ⟨a, ⟨ha, hpid⟩, r, ⟨hr, hrid, hact⟩, hq⟩
        exact ⟨a, ha, hpid, r, hr, hrid, hact, hq⟩
      · rintro ⟨a, ha, hpid, r, hr, hrid, hact, hq⟩
        exact ⟨a, ⟨ha, hpid⟩, r, ⟨hr, hrid, hact⟩, hq⟩
    · simp [hp]
  · intro hp
    unfold effectivePermissions
    simp [hp]

/-- C2 witness instance. -/
theorem effectivePermissions_characterization_witness :
    ("users:read" ∈ effectivePermissions
        [⟨1, "reader", false, true, ["users:read"]⟩]
        [⟨7, 1⟩] ⟨7, true, false, 0⟩ ↔
      (⟨7, true, false, 0⟩ : Principal).active = true ∧
        ∃ a ∈ [(⟨7, 1⟩ : RoleAssignment)], a.principalId = 7 ∧
          ∃ r ∈ [(⟨1, "reader", false, true, ["users:read"]⟩ : Role)],
            r.id = a.roleId ∧ r.is_active = true ∧
              "users:read" ∈ r.permissions) ∧
    ((⟨7, true, false, 0⟩ : Principal).active = false →
      effectivePermissions [⟨1, "reader", false, true, ["users:read"]⟩]
        [⟨7, 1⟩] ⟨7, true, false, 0⟩ = []) :=
  effectivePermissions_characterization
    [⟨1, "reader", false, true, ["users:read"]⟩] [⟨7, 1⟩]
    ⟨7, true, false, 0⟩ "users:read"

/-- C1: `authorize P q` returns `true` iff the super-admin bit
(`is_admin`) is set or `q` is a member of `effectivePermissions P`. -/
theorem authorize_iff (roles : List Role) (asgn : List RoleAssignment)
    (p : Principal) (q : String) :
    authorize roles asgn p q = true ↔
      p.is_admin = true ∨ q ∈ effectivePermissions roles asgn p := by
  unfold authorize
  simp [List.elem_iff]

/-! ## Theorems: TokenService -/

/-- C3: once a principal's epoch is bumped past the epoch embedded in a
previously issued credential, `validate` fails with `Revoked` — even at
times no later than the credential's expiry — and more generally no
credential whose embedded epoch is older than the principal's live epoch
is ever accepted. -/
theorem validate_revoked_after_epoch_bump
    (key t0 now : Nat) (p p' : Principal)
    (lookup : Nat → Option Principal)
    (hlook : lookup p.id = some p')
    (hbump : p.epoch < p'.epoch)
    (hnow : now ≤ t0 + sessionTTL) :
    validate key lookup (issue key p t0) now = .error .Revoked ∧
    ∀ (c : SessionCredential) (t : Nat) (q : Principal),
      lookup c.subject = some p' → c.epoch < p'.epoch →
        validate key lookup c t ≠ .ok q := by
  constructor
  · unfold validate issue
    simp only [ne_eq, not_true_eq_false, if_false, ite_not]
    have hexp : ¬ (t0 + sessionTTL < now) := Nat.not_lt.mpr hnow
    simp [hexp, hlook, Nat.ne_of_lt hbump]
  · intro c t q hl he
    unfold validate
    by_cases h1 : c.sigKey ≠ key
    · simp [h1]
    · by_cases h2 : c.expiry < t
      · simp [h1, h2]
      · simp [h1, h2, hl, Nat.ne_of_lt he]

/-- C3 witness instance. -/
theorem validate_revoked_after_epoch_bump_witness :
    ((fun i => if i == 1 then some (⟨1, true, false, 5⟩ : Principal)
        else none) 1 = some (⟨1, true, false, 5⟩ : Principal)) ∧
    (0 : Nat) < 5 ∧ (1800 : Nat) ≤ 0 + sessionTTL ∧
    validate 0
      (fun i => if i == 1 then some (⟨1, true, false, 5⟩ : Principal)
        else none)
      (issue 0 ⟨1, true, false, 0⟩ 0) 1800 = .error .Revoked := by
  refine ⟨rfl, by decide, by decide, ?_⟩
  exact (validate_revoked_after_epoch_bump 0 0 1800
    ⟨1, true, false, 0⟩ ⟨1, true, false, 5⟩ _ rfl (by decide) (by decide)).1

/-- C7: a credential issued at `t0` to an active, unrevoked principal
validates successfully at every time up to `t0 + TTL` and fails with
`Expired` at every time after `t0 + TTL` (TTL is the fixed one hour). -/
theorem validate_ttl (key t0 : Nat) (p : Principal)
    (lookup : Nat → Option Principal)
    (hlook : lookup p.id = some p)
    (hact : p.active = true) :
    (∀ now, now ≤ t0 + sessionTTL →
      validate key lookup (issue key p t0) now = .ok p) ∧
    (∀ now, t0 + sessionTTL < now →
      validate key lookup (issue key p t0) now = .error .Expired) := by
  constructor
  · intro now hnow
    unfold validate issue
    have hexp : ¬ (t0 + sessionTTL < now) := Nat.not_lt.mpr hnow
    simp [hexp, hlook, hact]
  · intro now hnow
    unfold validate issue
    simp [hnow]

/-- C7 witness instance: issued at `T0 = 0` with the 1-hour TTL, the
credential validates at `T0 + 30min` and is `Expired` at
`T0 + 61min`. -/
theorem validate_ttl_witness :
    ((fun i => if i == 1 then some (⟨1, true, false, 0⟩ : Principal)
        else none) 1 = some (⟨1, true, false, 0⟩ : Principal)) ∧
    (⟨1, true, false, 0⟩ : Principal).active = true ∧
    validate 0
      (fun i => if i == 1 then some (⟨1, true, false, 0⟩ : Principal)
        else none)
      (issue 0 ⟨1, true, false, 0⟩ 0) 1800 =
        .ok (⟨1, true, false, 0⟩ : Principal) ∧
    validate 0
      (fun i => if i == 1 then some (⟨1, true, false, 0⟩ : Principal)
        else none)
      (issue 0 ⟨1, true, false, 0⟩ 0) 3660 = .error .Expired := by
  refine ⟨rfl, rfl, ?_, ?_⟩
  · exact (validate_ttl 0 0 ⟨1, true, false, 0⟩ _ rfl rfl).1 1800 (by decide)
  · exact (validate_ttl 0 0 ⟨1, true, false, 0⟩ _ rfl rfl).2 3660 (by decide)

/-! ## Theorems: ResetTokenManager -/

/-- Inversion of a successful `redeem`: the record was found by hash,
unredeemed, unexpired, and the resulting store marks every record with
that hash redeemed. -/
theorem redeem_ok_inv (st : ResetState) (raw now pid : Nat)
    (st' : ResetState) (hok : redeem st raw now = .ok (pid, st')) :
    ∃ r, st.records.find? (fun r2 => r2.hash == hashToken raw) = some r ∧
      r.redeemed = false ∧ ¬ (r.expiry < now) ∧ pid = r.principalId ∧
      st' = { st with records := st.records.map (fun r2 =>
        if r2.hash == hashToken raw then { r2 with redeemed := true }
        else r2) } := by
  unfold redeem at hok
  cases hfind : st.records.find? (fun r => r.hash == hashToken raw) with
  | none => rw [hfind] at hok; exact absurd hok (by simp)
  | some r =>
    rw [hfind] at hok
    by_cases hr : r.redeemed
    · simp [hr] at hok
    · by_cases he : r.expiry < now
      · simp [hr, he] at hok
      · simp only [hr, he, if_neg, if_false, Bool.false_eq_true,
          not_false_eq_true, ite_false, Except.ok.injEq, Prod.mk.injEq] at hok
        exact ⟨r, rfl, by simp [hr], he, hok.1.symm, hok.2.symm⟩

/-- After marking a hash redeemed, `find?` by that hash returns the
previously found record with its redeemed mark set. -/
theorem find_after_mark (l : List TokenRecord) (h : Nat) (r : TokenRecord)
    (hf : l.find? (fun r2 => r2.hash == h) = some r) :
    (l.map (fun r2 => if r2.hash == h then { r2 with redeemed := true }
      else r2)).find? (fun r2 => r2.hash == h) =
      some { r with redeemed := true } := by
  induction l with
  | nil => simp [List.find?] at hf
  | cons a l ih =>
    by_cases ha : (a.hash == h)
    · simp only [List.find?, ha, if_pos] at hf
      simp only [List.map_cons]
      rw [if_pos ha]
      have : ({ a with redeemed := true } : TokenRecord).hash == h := ha
      simp only [List.find?, this]
      simp at hf
      rw [hf]
    · simp only [List.find?, ha] at hf
      simp only [List.map_cons]
      rw [if_neg (by simp [ha])]
      simp only [List.find?, ha]
      exact ih hf

/-- A successful redemption leaves the redeemed token dead: issued, and
every record with its hash marked redeemed. -/
theorem redeem_ok_dead (st : ResetState) (raw now pid : Nat)
    (st' : ResetState) (hw : ResetWF st)
    (hok : redeem st raw now = .ok (pid, st')) :
    TokenDead st' now (hashToken raw) := by
  obtain ⟨r, hfind, hred, hexp, hpid, hst⟩ :=
    redeem_ok_inv st raw now pid st' hok
  have hrmem := List.mem_of_find?_eq_some hfind
  have hrh : r.hash = hashToken raw := by
    simpa using List.find?_some hfind
  subst hst
  constructor
  · exact hrh ▸ hw r hrmem
  · intro r2 hr2 hh
    simp only [List.mem_map] at hr2
    obtain ⟨r3, hr3, hr3eq⟩ := hr2
    by_cases hc : (r3.hash == hashToken raw)
    · rw [if_pos hc] at hr3eq
      left
      rw [← hr3eq]
    · rw [if_neg (by simp [hc])] at hr3eq
      subst hr3eq
      exact absurd (by rw [hh]; simp) hc

/-- A dead token hash stays dead across any single step. -/
theorem resetStep_dead {s s' : ResetState × Nat} {h : Nat}
    (hs : ResetStep s s') (hd : TokenDead s.1 s.2 h) :
    TokenDead s'.1 s'.2 h := by
  cases hs with
  | request st t pid raw t' hle hfresh =>
    constructor
    · exact List.mem_cons_of_mem _ hd.1
    · intro r hr hrh
      simp only [requestReset, List.mem_append, List.mem_filter,
        List.mem_singleton] at hr
      rcases hr with ⟨hrmem, _⟩ | hreq
      · rcases hd.2 r hrmem hrh with h1 | h2
        · exact Or.inl h1
        · exact Or.inr (Nat.lt_of_lt_of_le h2 hle)
      · subst hreq
        have hA : hashToken raw = h := hrh
        subst hA
        exact absurd hd.1 hfresh
  | redeemOk st t raw t' pid st' hle hok =>
    obtain ⟨r, hfind, hred, hexp, hpid, hst⟩ :=
      redeem_ok_inv st raw t' pid st' hok
    subst hst
    constructor
    · exact hd.1
    · intro r2 hr2 hh
      simp only [List.mem_map] at hr2
      obtain ⟨r3, hr3, hr3eq⟩ := hr2
      by_cases hc : (r3.hash == hashToken raw)
      · rw [if_pos hc] at hr3eq
        left
        rw [← hr3eq]
      · rw [if_neg (by simp [hc])] at hr3eq
        subst hr3eq
        rcases hd.2 r3 hr3 hh with h1 | h2
        · exact Or.inl h1
        · exact Or.inr (Nat.lt_of_lt_of_le h2 hle)
  | gc st t t' hle =>
    constructor
    · exact hd.1
    · intro r hr hrh
      simp only [gcExpired, List.mem_filter] at hr
      rcases hd.2 r hr.1 hrh with h1 | h2
      · exact Or.inl h1
      · exact Or.inr (Nat.lt_of_lt_of_le h2 hle)
  | tick st t t' hle =>
    constructor
    · exact hd.1
    · intro r hr hrh
      rcases hd.2 r hr hrh with h1 | h2
      · exact Or.inl h1
      · exact Or.inr (Nat.lt_of_lt_of_le h2 hle)

/-- A dead token hash stays dead across any reachable sequence of
steps. -/
theorem resetReach_dead {s1 s2 : ResetState × Nat} {h : Nat}
    (hr : ResetReach s1 s2) (hd : TokenDead s1.1 s1.2 h) :
    TokenDead s2.1 s2.2 h := by
  induction hr with
  | refl => exact hd
  | tail hreach hstep ih => exact resetStep_dead hstep ih

/-- A dead token can never be redeemed. -/
theorem dead_no_redeem (st : ResetState) (t raw : Nat)
    (hd : TokenDead st t (hashToken raw)) :
    ∀ pid st', redeem st raw t ≠ .ok (pid, st') := by
  intro pid st' hok
  obtain ⟨r, hfind, hred, hexp, _, _⟩ := redeem_ok_inv st raw t pid st' hok
  have hrmem := List.mem_of_find?_eq_some hfind
  have hrh : r.hash = hashToken raw := by
    simpa using List.find?_some hfind
  rcases hd.2 r hrmem hrh with h1 | h2
  · rw [hred] at h1
    exact Bool.false_ne_true h1
  · exact hexp h2

/-- C4: a ResetToken is single-use — a second redemption attempt after
a successful one fails with `AlreadyRedeemed` or `NotFound`, and a token
that is redeemed, or more generally dead (redeemed or expired), can
never be redeemed in any later reachable state. -/
theorem redeem_single_use (st st' : ResetState) (raw now1 now2 pid : Nat)
    (hw : ResetWF st) (hok : redeem st raw now1 = .ok (pid, st')) :
    (redeem st' raw now2 = .error .AlreadyRedeemed ∨
      redeem st' raw now2 = .error .NotFound) ∧
    (∀ st2 t2, ResetReach (st', now1) (st2, t2) →
      ∀ pid2 st3, redeem st2 raw t2 ≠ .ok (pid2, st3)) ∧
    (∀ (raw0 : Nat) (s1 s2 : ResetState × Nat),
      TokenDead s1.1 s1.2 (hashToken raw0) → ResetReach s1 s2 →
      ∀ pid2 st3, redeem s2.1 raw0 s2.2 ≠ .ok (pid2, st3)) := by
  have hdead := redeem_ok_dead st raw now1 pid st' hw hok
  refine ⟨?_, ?_, ?_⟩
  · left
    obtain ⟨r, hfind, hred, hexp, hpid, hst⟩ :=
      redeem_ok_inv st raw now1 pid st' hok
    have hfind2 := find_after_mark st.records (hashToken raw) r hfind
    subst hst
    unfold redeem
    simp only []
    rw [hfind2]
    simp
  · intro st2 t2 hreach pid2 st3
    exact dead_no_redeem st2 t2 raw (resetReach_dead hreach hdead) pid2 st3
  · intro raw0 s1 s2 hd hreach pid2 st3
    exact dead_no_redeem s2.1 s2.2 raw0 (resetReach_dead hreach hd) pid2 st3

/-- C4 witness instance. -/
theorem redeem_single_use_witness :
    ResetWF ⟨[⟨10, 1, 100, false⟩], [10]⟩ ∧
    redeem ⟨[⟨10, 1, 100, false⟩], [10]⟩ 10 50 =
      .ok (1, ⟨[⟨10, 1, 100, true⟩], [10]⟩) ∧
    (redeem ⟨[⟨10, 1, 100, true⟩], [10]⟩ 10 60 = .error .AlreadyRedeemed ∨
      redeem ⟨[⟨10, 1, 100, true⟩], [10]⟩ 10 60 = .error .NotFound) := by
  have hw : ResetWF ⟨[⟨10, 1, 100, false⟩], [10]⟩ := by
    intro r hr
    simp only [List.mem_singleton] at hr
    subst hr
    simp
  have hok : redeem ⟨[⟨10, 1, 100, false⟩], [10]⟩ 10 50 =
      .ok (1, ⟨[⟨10, 1, 100, true⟩], [10]⟩) := by rfl
  exact ⟨hw, hok,
    (redeem_single_use ⟨[⟨10, 1, 100, false⟩], [10]⟩
      ⟨[⟨10, 1, 100, true⟩], [10]⟩ 10 50 60 1 hw hok).1⟩

/-- Mapping a function that can only falsify a predicate does not
increase the length of the filtered list. -/
theorem length_filter_map_le (l : List TokenRecord)
    (f : TokenRecord → TokenRecord) (p : TokenRecord → Bool)
    (hf : ∀ a, p (f a) = true → p a = true) :
    ((l.map f).filter p).length ≤ (l.filter p).length := by
  induction l with
  | nil => simp
  | cons a l ih =>
    simp only [List.map_cons, List.filter_cons]
    by_cases hfa : p (f a)
    · have hpa := hf a hfa
      simp only [hfa, hpa, if_pos, List.length_cons]
      exact Nat.succ_le_succ ih
    · by_cases hpa : p a
      · simp only [hfa, hpa, if_pos, ite_false, List.length_cons]
        exact Nat.le_succ_of_le ih
      · simp only [hfa, hpa, ite_false]
        exact ih

/-- Each step preserves the at-most-one-live-token-per-principal
invariant. -/
theorem resetStep_atMostOne {s s' : ResetState × Nat}
    (hs : ResetStep s s') (ha : AtMostOneLive s.1) : AtMostOneLive s'.1 := by
  cases hs with
  | request st t pid raw t' hle hfresh =>
    intro pid0
    unfold requestReset
    simp only [List.filter_append]
    by_cases hp : pid0 = pid
    · subst hp
      have h1 : (st.records.filter
          (fun r => !(r.principalId == pid0 && !r.redeemed))).filter
          (fun r => r.principalId == pid0 && !r.redeemed) = [] := by
        rw [List.filter_eq_nil_iff]
        intro a ha2
        have hq := List.of_mem_filter ha2
        simp only [Bool.not_eq_true'] at hq
        simp [hq]
      rw [h1]
      simp
    · have hsub : List.Sublist
          ((st.records.filter
            (fun r => !(r.principalId == pid && !r.redeemed))).filter
            (fun r => r.principalId == pid0 && !r.redeemed))
          (st.records.filter
            (fun r => r.principalId == pid0 && !r.redeemed)) :=
        (List.filter_sublist st.records).filter _
      have hnew : (([⟨hashToken raw, pid, t' + resetTTL, false⟩] :
          List TokenRecord).filter
          (fun r => r.principalId == pid0 && !r.redeemed)) = [] := by
        simp [Ne.symm hp]
      rw [hnew]
      simpa using le_trans hsub.length_le (ha pid0)
  | redeemOk st t raw t' pid st' hle hok =>
    obtain ⟨r, hfind, hred, hexp, hpid, hst⟩ :=
      redeem_ok_inv st raw t' pid st' hok
    subst hst
    intro pid0
    refine le_trans (length_filter_map_le st.records _ _ ?_) (ha pid0)
    intro a hpa
    by_cases hc : (a.hash == hashToken raw)
    · rw [if_pos hc] at hpa
      simp at hpa
    · rwa [if_neg (by simp [hc])] at hpa
  | gc st t t' hle =>
    intro pid0
    unfold gcExpired
    exact le_trans ((List.filter_sublist st.records).filter _).length_le
      (ha pid0)
  | tick st t t' hle => exact ha

/-- The at-most-one-live invariant is preserved along any reachable
sequence of steps. -/
theorem resetReach_atMostOne {s1 s2 : ResetState × Nat}
    (hr : ResetReach s1 s2) (ha : AtMostOneLive s1.1) :
    AtMostOneLive s2.1 := by
  induction hr with
  | refl => exact ha
  | tail hreach hstep ih => exact resetStep_atMostOne hstep ih

/-- C6: at most one live reset token per principal — every store
reachable from the empty one satisfies the invariant, and after two
sequential `requestReset` calls for the same principal the first token
is `NotFound` while the second still redeems (before its expiry). -/
theorem requestReset_one_live
    (st0 : ResetState) (pid raw1 raw2 t1 t2 : Nat)
    (hw : ResetWF st0)
    (hfresh1 : hashToken raw1 ∉ st0.usedHashes)
    (hfresh2 : hashToken raw2 ∉ (requestReset st0 pid raw1 t1).usedHashes) :
    (∀ st t, ResetReach (⟨[], []⟩, 0) (st, t) → AtMostOneLive st) ∧
    (∀ t, redeem (requestReset (requestReset st0 pid raw1 t1) pid raw2 t2)
      raw1 t = .error .NotFound) ∧
    (∀ t, ¬ (t2 + resetTTL < t) →
      ∃ st3, redeem (requestReset (requestReset st0 pid raw1 t1) pid
        raw2 t2) raw2 t = .ok (pid, st3)) := by
  have hne12 : hashToken raw2 ≠ hashToken raw1 := by
    intro heq
    apply hfresh2
    rw [heq]
    unfold requestReset
    exact List.mem_cons_self _ _
  have h2notin0 : hashToken raw2 ∉ st0.usedHashes := by
    intro hmem
    exact hfresh2 (List.mem_cons_of_mem _ hmem)
  have hold : ∀ r ∈ (requestReset st0 pid raw1 t1).records.filter
      (fun r => !(r.principalId == pid && !r.redeemed)),
      r.hash ≠ hashToken raw1 ∧ r.hash ≠ hashToken raw2 := by
    intro r hr
    have hrQ := List.of_mem_filter hr
    have hrmem := List.mem_of_mem_filter hr
    simp only [requestReset, List.mem_append, List.mem_singleton] at hrmem
    rcases hrmem with hr0 | hreq
    · have hr0mem := List.mem_of_mem_filter hr0
      have hused := hw r hr0mem
      exact ⟨fun he => hfresh1 (he ▸ hused),
        fun he => h2notin0 (he ▸ hused)⟩
    · subst hreq
      simp at hrQ
  refine ⟨?_, ?_, ?_⟩
  · intro st t hreach
    refine resetReach_atMostOne hreach ?_
    intro pid0
    simp
  · intro t
    have hnone : (requestReset (requestReset st0 pid raw1 t1) pid
        raw2 t2).records.find?
        (fun r => r.hash == hashToken raw1) = none := by
      rw [List.find?_eq_none]
      intro r hr
      simp only [requestReset, List.mem_append, List.mem_singleton] at hr
      rcases hr with hrA | hreq
      · simp [(hold r hrA).1]
      · subst hreq
        simp [hne12]
    unfold redeem
    rw [hnone]
  · intro t ht
    have hnoneA : ((requestReset st0 pid raw1 t1).records.filter
        (fun r => !(r.principalId == pid && !r.redeemed))).find?
        (fun r => r.hash == hashToken raw2) = none := by
      rw [List.find?_eq_none]
      intro r hr
      simp [(hold r hr).2]
    have hfind : (requestReset (requestReset st0 pid raw1 t1) pid
        raw2 t2).records.find? (fun r => r.hash == hashToken raw2) =
        some ⟨hashToken raw2, pid, t2 + resetTTL, false⟩ := by
      show (_ ++ [(⟨hashToken raw2, pid, t2 + resetTTL, false⟩ :
        TokenRecord)]).find? _ = _
      rw [List.find?_append, hnoneA]
      simp [List.find?]
    refine ⟨{ requestReset (requestReset st0 pid raw1 t1) pid raw2 t2 with
      records := (requestReset (requestReset st0 pid raw1 t1) pid
        raw2 t2).records.map
        (fun r2 => if r2.hash == hashToken raw2 then
          { r2 with redeemed := true } else r2) }, ?_⟩
    unfold redeem
    rw [hfind]
    simp [ht]

/-- C6 witness instance. -/
theorem requestReset_one_live_witness :
    ResetWF ⟨[], []⟩ ∧
    hashToken 10 ∉ (⟨[], []⟩ : ResetState).usedHashes ∧
    hashToken 20 ∉ (requestReset ⟨[], []⟩ 1 10 0).usedHashes ∧
    redeem (requestReset (requestReset ⟨[], []⟩ 1 10 0) 1 20 0) 10 5 =
      .error .NotFound := by
  have hw : ResetWF ⟨[], []⟩ := by
    intro r hr
    simp at hr
  have h1 : hashToken 10 ∉ (⟨[], []⟩ : ResetState).usedHashes := by
    simp
  have h2 : hashToken 20 ∉ (requestReset ⟨[], []⟩ 1 10 0).usedHashes := by
    simp [requestReset, hashToken]
  exact ⟨hw, h1, h2,
    (requestReset_one_live ⟨[], []⟩ 1 10 20 0 0 hw h1 h2).2.1 5⟩

/-! ## Theorems: login redirect sanitization -/

/-- C8: counterexample evaluation — the login sanitizer stores a
protocol-relative external URL: for the query value
`redirect=example.com//evil.com/x` the stored post-login target is
`//evil.com/x`, which begins with `//`, contradicting the sanitizer's
own stated goal of preventing open redirects. -/
theorem sanitizeRedirect_protocol_relative :
    sanitizeRedirect "example.com//evil.com/x" = some "//evil.com/x" ∧
    strStartsWith "//evil.com/x" "//" = true := by
  exact ⟨by decide, by decide⟩

/-! ## Theorems: admin user role update -/

/-- Folding the DELETE endpoint over a list of role ids removes exactly
those ids. -/
theorem mem_foldl_roleDelete (l : List String) (s : List String)
    (x : String) :
    (x ∈ l.foldl applyRoleDelete s ↔ x ∈ s ∧ x ∉ l) := by
  induction l generalizing s with
  | nil => simp
  | cons a l ih =>
    simp only [List.foldl_cons, ih, applyRoleDelete, List.mem_filter,
      List.mem_cons, decide_eq_true_eq]
    tauto

/-- Folding the POST endpoint over a list of role ids adds exactly
those ids. -/
theorem mem_foldl_roleAdd (l : List String) (s : List String)
    (x : String) :
    (x ∈ l.foldl applyRoleAdd s ↔ x ∈ s ∨ x ∈ l) := by
  induction l generalizing s with
  | nil => simp
  | cons a l ih =>
    simp only [List.foldl_cons, ih, List.mem_cons]
    have hstep : x ∈ applyRoleAdd s a ↔ x ∈ s ∨ x = a := by
      unfold applyRoleAdd
      by_cases hc : s.contains a
      · simp only [hc, if_pos]
        constructor
        · exact Or.inl
        · rintro (hx | hx)
          · exact hx
          · subst hx
            exact List.elem_iff.mp hc
      · rw [if_neg hc]
        simp only [List.mem_cons]
        tauto
    rw [hstep]
    tauto

/-- C9: the role mutations issued by `AdminUsersPage.handleSubmit` — a
DELETE for every currently held role, then a POST for every selected
role id — leave the user's assigned role set equal to exactly the
selected set, when the edited snapshot matches the server state. -/
theorem handleSubmitRoles_set_replacement
    (current priorRoles formRoles : List String)
    (h : current = priorRoles) :
    ∀ x, (x ∈ handleSubmitRoles current priorRoles formRoles ↔
      x ∈ formRoles) := by
  subst h
  intro x
  unfold handleSubmitRoles
  rw [mem_foldl_roleAdd, mem_foldl_roleDelete]
  tauto

/-- C9 witness instance. -/
theorem handleSubmitRoles_set_replacement_witness :
    (["r1", "r2"] : List String) = ["r1", "r2"] ∧
    (("r3" : String) ∈ handleSubmitRoles ["r1", "r2"] ["r1", "r2"]
      ["r2", "r3"] ↔ ("r3" : String) ∈ (["r2", "r3"] : List String)) :=
  ⟨rfl, handleSubmitRoles_set_replacement ["r1", "r2"] ["r1", "r2"]
    ["r2", "r3"] rfl "r3"⟩

/-! ## Theorems: password form validation -/

/-- C10: every password-setting form — signup, reset-password, the
dashboard change-password form and the profile change-password form —
rejects locally, without issuing the API request, whenever the new
password is shorter than 8 characters or differs from its
confirmation. -/
theorem passwordForms_reject_locally (pw confirm : String)
    (tok : Option String)
    (h : pw.length < 8 ∨ pw ≠ confirm) :
    signupSubmit pw confirm ≠ .apiCall ∧
    resetPasswordSubmit pw confirm tok ≠ .apiCall ∧
    dashboardPasswordChange pw confirm ≠ .apiCall ∧
    profilePasswordSubmit pw confirm ≠ .apiCall := by
  by_cases hne : pw = confirm
  · rcases h with hlen | hne2
    · subst hne
      refine ⟨?_, ?_, ?_, ?_⟩ <;>
        simp [signupSubmit, resetPasswordSubmit, dashboardPasswordChange,
          profilePasswordSubmit, hlen]
    · exact absurd hne hne2
  · refine ⟨?_, ?_, ?_, ?_⟩ <;>
      simp [signupSubmit, resetPasswordSubmit, dashboardPasswordChange,
        profilePasswordSubmit, hne]

/-- C10 witness instance. -/
theorem passwordForms_reject_locally_witness :
    (("short" : String).length < 8 ∨ ("short" : String) ≠ "short") ∧
    signupSubmit "short" "short" ≠ .apiCall ∧
    resetPasswordSubmit "short" "short" (some "t") ≠ .apiCall ∧
    dashboardPasswordChange "short" "short" ≠ .apiCall ∧
    profilePasswordSubmit "short" "short" ≠ .apiCall :=
  ⟨Or.inl (by decide),
    passwordForms_reject_locally "short" "short" (some "t")
      (Or.inl (by decide))⟩

/-! ## Theorems: ConfigCache -/

/-- C5: `bulkSet` is all-or-nothing — if any key of the update map is
unknown among the config entries or names a non-editable entry, then no
entry's value changes and an error is reported. -/
theorem bulkSet_atomic (entries : List ConfigEntry)
    (m : List (String × ConfigValue))
    (h : ∃ kv ∈ m,
      (entries.find? (fun e => e.key == kv.1)).isNone = true ∨
      ∃ e, entries.find? (fun e2 => e2.key == kv.1) = some e ∧
        e.is_editable = false) :
    (bulkSet entries m).1 = entries ∧
      (bulkSet entries m).2.isSome = true := by
  obtain ⟨kv, hkv, hbad⟩ := h
  by_cases h1 : m.any (fun kv => (entries.find? (fun e => e.key == kv.1)).isNone)
  · unfold bulkSet
    simp [h1]
  · have h2 : m.any (fun kv =>
        match entries.find? (fun e => e.key == kv.1) with
        | some e => !e.is_editable
        | none => false) = true := by
      rcases hbad with hnone | ⟨e, hfind, hed⟩
      · exact absurd (List.any_eq_true.mpr ⟨kv, hkv, hnone⟩) h1
      · exact List.any_eq_true.mpr ⟨kv, hkv, by simp [hfind, hed]⟩
    unfold bulkSet
    simp [h1, h2]

/-- C5 witness instance: an update map touching an editable entry `A` and
a non-editable entry `B` applies neither. -/
theorem bulkSet_atomic_witness :
    (∃ kv ∈ [("A", ConfigValue.int 1), ("B", ConfigValue.int 2)],
      (([⟨"A", .str "a", "general", false, true⟩,
         ⟨"B", .str "b", "general", false, false⟩] :
          List ConfigEntry).find? (fun e => e.key == kv.1)).isNone = true ∨
      ∃ e, ([⟨"A", .str "a", "general", false, true⟩,
             ⟨"B", .str "b", "general", false, false⟩] :
          List ConfigEntry).find? (fun e2 => e2.key == kv.1) = some e ∧
        e.is_editable = false) ∧
    (bulkSet
      [⟨"A", .str "a", "general", false, true⟩,
       ⟨"B", .str "b", "general", false, false⟩]
      [("A", ConfigValue.int 1), ("B", ConfigValue.int 2)]).1 =
      [⟨"A", .str "a", "general", false, true⟩,
       ⟨"B", .str "b", "general", false, false⟩] ∧
    (bulkSet
      [⟨"A", .str "a", "general", false, true⟩,
       ⟨"B", .str "b", "general", false, false⟩]
      [("A", ConfigValue.int 1), ("B", ConfigValue.int 2)]).2.isSome = true := by
  refine ⟨⟨("B", ConfigValue.int 2), by decide,
    Or.inr ⟨⟨"B", .str "b", "general", false, false⟩, by decide, rfl⟩⟩, ?_⟩
  exact bulkSet_atomic _ _
    ⟨("B", ConfigValue.int 2), by decide,
      Or.inr ⟨⟨"B", .str "b", "general", false, false⟩, by decide, rfl⟩⟩

end SampleApp
